import Mathlib

/-!
Verification development for the modred decomposition core (bpod.py, era.py).

Matrices are shallowly embedded as total functions `ℕ → ℕ → ℚ` together with
explicit dimension arguments wherever a numpy operation depends on an array
shape (matrix products carry their inner dimension; slices such as
`M[:, :r]` act through the summation bounds of the products that consume
them).  Numeric entries are modelled as rationals: every claim under test is
about index arithmetic, slicing, state mutation and control flow, none about
floating-point rounding.  External numerical collaborators that are not part
of the source under verification (`util.svd`, `numpy.linalg.eig`, the
element-wise float powers `**0.5` / `**-0.5`, `get_mat` loaders and the MPI
layer of the `parallel` module) enter as oracle parameters or are modelled
from the spec where noted.
-/

abbrev Vec := ℕ → ℚ

abbrev Mat := ℕ → ℕ → ℚ

def zeroMat : Mat := fun _ _ => 0

/-- Matrix product with explicit inner dimension `k`, modelling
`numpy.dot` / `numpy.matrix` multiplication of an `m×k` by a `k×n` array. -/
def mmul (k : ℕ) (A B : Mat) : Mat :=
  fun i j => ∑ x in Finset.range k, A i x * B x j

/-- Transpose; over real entries this is also `.H` (conjugate transpose). -/
def transposeMat (M : Mat) : Mat := fun i j => M j i

/-- Model of `numpy.diag` applied to a vector given as a finite list. -/
def diagList (l : List ℚ) : Mat :=
  fun i j => if i = j then l.getD i 0 else 0

/-- Model of `numpy.diag` applied to a vector given as a function
(entries beyond the intended length are never consumed in range). -/
def diagVec (v : Vec) : Mat :=
  fun i j => if i = j then v i else 0

/-! ## BPOD (bpod.py)

The `BPOD` instance state, restricted to the fields the cited methods read
and write.  A Python attribute holding `None` is `Option.none`. -/

/-- Error raised as `util.UndefinedError` in the source (the spec's
`UndefinedStateError`). -/
inductive BpodErr where
  | undefinedError : BpodErr
deriving DecidableEq

structure BPODState where
  L_sing_vecs : Option Mat
  R_sing_vecs : Option Mat
  sing_vals : Option (List ℚ)
  hankel_mat : Option Mat

/-- State after `BPOD.__init__`: every decomposition field is `None`. -/
def BPOD.init : BPODState :=
  { L_sing_vecs := none, R_sing_vecs := none, sing_vals := none,
    hankel_mat := none }

/-- Embedding of `BPOD._compute_direct_build_coeff_mat` (bpod.py lines
177-186): raise `UndefinedError` if `R_sing_vecs` or `sing_vals` is `None`,
else return `N.dot(R_sing_vecs, N.diag(sing_vals**-0.5))`.  The element-wise
float power `**-0.5` is the oracle `isqrt`; `N.squeeze(N.array(...))` is the
identity on the 1-D singular-value list. -/
def BPOD.compute_direct_build_coeff_mat (isqrt : ℚ → ℚ) (s : BPODState) :
    Except BpodErr Mat :=
  match s.R_sing_vecs with
  | none => .error .undefinedError
  | some R =>
    match s.sing_vals with
    | none => .error .undefinedError
    | some sv => .ok (mmul sv.length R (diagList (sv.map isqrt)))

/-- Embedding of `BPOD._compute_adjoint_build_coeff_mat` (bpod.py lines
236-246): same as the direct variant with `L_sing_vecs` in place of
`R_sing_vecs`. -/
def BPOD.compute_adjoint_build_coeff_mat (isqrt : ℚ → ℚ) (s : BPODState) :
    Except BpodErr Mat :=
  match s.L_sing_vecs with
  | none => .error .undefinedError
  | some L =>
    match s.sing_vals with
    | none => .error .undefinedError
    | some sv => .ok (mmul sv.length L (diagList (sv.map isqrt)))

/-- Spec-side formula (spec §4.4): build-coefficient matrix
`X · diag(Σ^(-1/2))` written entrywise, for `X` the relevant
singular-vector matrix. -/
def buildCoeffSpec (isqrt : ℚ → ℚ) (X : Mat) (sv : List ℚ) : Mat :=
  fun i j => X i j * isqrt (sv.getD j 0)

/-! ### Distributed execution model for BPOD

The `parallel` module is not part of the sources under `src/`; its
behaviour is modelled from the spec.  Modelled from the spec (§4.3, §5):
SPMD workers indexed by `ℕ` each hold a `BPODState`; `is_rank_zero()` holds
exactly for worker `0`; `comm.bcast(value, root=0)` is a blocking collective
in which every worker passes its local `value` and every worker receives the
value passed by rank zero; `is_distributed()` is a fixed flag of the run. -/

/-- Worker states of an SPMD run, worker index ↦ that worker's instance. -/
abbrev World := ℕ → BPODState

/-- Modelled from the spec (§4.3): `comm.bcast(·, root=0)` — every worker
receives the value that rank zero passed. -/
def bcastFrom0 (vals : ℕ → α) : ℕ → α := fun _ => vals 0

/-- Embedding of `BPOD.get_decomp` (bpod.py lines 61-80), parameterised by
the matrices that `get_mat` returns on rank zero for the three sources
(`get_mat` is an external persistence hook, spec §6).  Rank zero loads
`L_sing_vecs`, `sing_vals`, `R_sing_vecs`; other workers set all three to
`None`; if the run is distributed, three broadcasts follow.  Note the third
broadcast (line 79) passes `self.L_sing_vecs`, not `self.R_sing_vecs`. -/
def BPOD.get_decomp (distributed : Bool) (Lld : Mat) (Sld : List ℚ)
    (Rld : Mat) (w : World) : World :=
  let w1 : World := fun i =>
    if i = 0 then
      { w 0 with L_sing_vecs := some Lld, sing_vals := some Sld,
                 R_sing_vecs := some Rld }
    else
      { w i with L_sing_vecs := none, sing_vals := none,
                 R_sing_vecs := none }
  if distributed then
    let w2 : World := fun i =>
      { w1 i with L_sing_vecs := bcastFrom0 (fun j => (w1 j).L_sing_vecs) i }
    let w3 : World := fun i =>
      { w2 i with sing_vals := bcastFrom0 (fun j => (w2 j).sing_vals) i }
    let w4 : World := fun i =>
      { w3 i with R_sing_vecs := bcastFrom0 (fun j => (w3 j).L_sing_vecs) i }
    w4
  else w1

/-- Embedding of `BPOD.compute_SVD` (bpod.py lines 154-173): rank zero runs
`util.svd(self.hankel_mat)` (the external factoring primitive, passed as the
oracle `svd` applied to rank zero's `hankel_mat` attribute); other workers
set the three fields to `None`; if distributed, each field is broadcast from
rank zero (here line 172 correctly passes `self.R_sing_vecs`). -/
def BPOD.compute_SVD (distributed : Bool)
    (svd : Option Mat → Mat × List ℚ × Mat) (w : World) : World :=
  let w1 : World := fun i =>
    if i = 0 then
      let res := svd (w 0).hankel_mat
      { w 0 with L_sing_vecs := some res.1, sing_vals := some res.2.1,
                 R_sing_vecs := some res.2.2 }
    else
      { w i with L_sing_vecs := none, sing_vals := none,
                 R_sing_vecs := none }
  if distributed then
    let w2 : World := fun i =>
      { w1 i with L_sing_vecs := bcastFrom0 (fun j => (w1 j).L_sing_vecs) i }
    let w3 : World := fun i =>
      { w2 i with sing_vals := bcastFrom0 (fun j => (w2 j).sing_vals) i }
    let w4 : World := fun i =>
      { w3 i with R_sing_vecs := bcastFrom0 (fun j => (w3 j).R_sing_vecs) i }
    w4
  else w1

/-! ## ERA (era.py) -/

/-- Error taxonomy for the ERA paths under verification.  `configError` is
the `ValueError` of era.py line 301 (the spec's `ConfigurationError`);
`dataError` is the `ValueError` of line 55 (the spec's `DataError`);
`sizeMismatch` is the `RuntimeError` of line 51; `indexError` is a numpy
`IndexError` from an out-of-range time index; `negativeDims` is the
`ValueError` numpy raises from `N.zeros` with a negative dimension;
`attributeError` models reading an instance attribute that was never
assigned. -/
inductive EraErr where
  | configError : EraErr
  | indexError : EraErr
  | negativeDims : EraErr
  | dataError : EraErr
  | sizeMismatch : EraErr
  | attributeError : EraErr
deriving DecidableEq

/-- A 3-axis Markov-parameter array of shape
`(data.length, no, ni)`: list along the time axis of `no × ni` matrices. -/
structure Tensor3 where
  data : List Mat
  no : ℕ
  ni : ℕ

/-- ERA instance state: the attributes read or written by the methods under
verification.  `None`-valued and never-assigned attributes are both
`Option.none` (no claim distinguishes a `None` read from an
`AttributeError`).  `mc`/`mo` are Python ints, hence `ℤ`. -/
structure ERAState where
  mc : Option ℤ
  mo : Option ℤ
  Markovs : Option (List Mat)
  num_time_steps : Option ℕ
  num_Markovs : Option ℕ
  num_inputs : Option ℕ
  Hankel_mat : Option Mat
  Hankel_mat2 : Option Mat
  L_sing_vecs : Option Mat
  sing_vals : Option Vec
  R_sing_vecs : Option Mat
  A : Option Mat
  B : Option Mat
  C : Option Mat
  verbose : Bool

/-- State after `ERA.__init__` with given `mc`, `mo`, `verbose`. -/
def ERA.init (mc mo : Option ℤ) (verbose : Bool) : ERAState :=
  { mc := mc, mo := mo, Markovs := none, num_time_steps := none,
    num_Markovs := none, num_inputs := none, Hankel_mat := none,
    Hankel_mat2 := none, L_sing_vecs := none, sing_vals := none,
    R_sing_vecs := none, A := none, B := none, C := none,
    verbose := verbose }

/-- Even-length trimming of era.py lines 274-277: if the number of time
steps is odd, drop the last entry. -/
def ERA.trimMarkovs (l : List Mat) : List Mat :=
  if l.length % 2 = 0 then l else l.dropLast

/-- Embedding of `ERA._set_Markovs` (era.py lines 252-277) specialised to a
3-axis input (the `ndim == 3` case, in which no reshape branch fires):
stores the Markov array, unpacks its shape into `num_time_steps`,
`num_Markovs`, `num_inputs`, and trims the last time step if their number
is odd. -/
def ERA.set_Markovs (s : ERAState) (t : Tensor3) : ERAState :=
  { s with Markovs := some (ERA.trimMarkovs t.data),
           num_time_steps := some (ERA.trimMarkovs t.data).length,
           num_Markovs := some t.no,
           num_inputs := some t.ni }

/-- Slice assignment `H[r0:r0+nr, c0:c0+nc] = B` on the function model. -/
def setBlock (M : Mat) (r0 c0 nr nc : ℕ) (B : Mat) : Mat :=
  fun i j =>
    if r0 ≤ i ∧ i < r0 + nr ∧ c0 ≤ j ∧ j < c0 + nc then
      B (i - r0) (j - c0)
    else M i j

/-- Inner loop of `ERA._assemble_Hankel` (era.py lines 312-318): for
`col, col+1, …, col+k-1` write the two Markov blocks of row `row` into the
accumulated pair `(Hankel_mat, Hankel_mat2)`.  A time index falling outside
the stored Markov list is numpy's `IndexError`; the partially written
accumulator is returned with it, as the in-place Python loop leaves it. -/
def ERA.hankelColLoop (Markovs : List Mat) (no ni row : ℕ) :
    ℕ → ℕ → Mat × Mat → (Mat × Mat) × Option EraErr
  | _, 0, acc => (acc, none)
  | col, k + 1, acc =>
    match Markovs.get? (2 * (row + col)) with
    | none => (acc, some .indexError)
    | some M =>
      let acc1 : Mat × Mat := (setBlock acc.1 (row * no) (col * ni) no ni M, acc.2)
      match Markovs.get? (2 * (row + col) + 1) with
      | none => (acc1, some .indexError)
      | some M2 =>
        ERA.hankelColLoop Markovs no ni row (col + 1) k
          (acc1.1, setBlock acc1.2 (row * no) (col * ni) no ni M2)

/-- Outer loop of `ERA._assemble_Hankel` (era.py lines 309-318): run the
column loop for rows `row, …, row+k-1`, stopping at the first error. -/
def ERA.hankelRowLoop (Markovs : List Mat) (no ni mc : ℕ) :
    ℕ → ℕ → Mat × Mat → (Mat × Mat) × Option EraErr
  | _, 0, acc => (acc, none)
  | row, k + 1, acc =>
    match ERA.hankelColLoop Markovs no ni row 0 mc acc with
    | (acc1, some e) => (acc1, some e)
    | (acc1, none) => ERA.hankelRowLoop Markovs no ni mc (row + 1) k acc1

/-- Embedding of `ERA._assemble_Hankel` (era.py lines 280-318).  Reads
`Markovs`, `num_time_steps`, `num_Markovs`, `num_inputs` (an unassigned one
is an attribute error); if `self.mo is None or self.mc is None`, both
default to `(num_time_steps - 2)/4` under Python-2 flooring division; then
raises the `ValueError` of line 301 when `mo + mc + 2 > num_time_steps`;
then `N.zeros` rejects a negative dimension; otherwise the two matrices are
zero-allocated and filled by the double block loop. -/
def ERA.assemble_Hankel (s : ERAState) : ERAState × Option EraErr :=
  match s.Markovs, s.num_time_steps, s.num_Markovs, s.num_inputs with
  | some Markovs, some T, some no, some ni =>
    let dflt : ℤ := Int.fdiv ((T : ℤ) - 2) 4
    let mo : ℤ := if s.mo = none ∨ s.mc = none then dflt else s.mo.getD 0
    let mc : ℤ := if s.mo = none ∨ s.mc = none then dflt else s.mc.getD 0
    let s1 := { s with mo := some mo, mc := some mc }
    if (T : ℤ) < mo + mc + 2 then (s1, some .configError)
    else if (0 < no ∧ mo < 0) ∨ (0 < ni ∧ mc < 0) then (s1, some .negativeDims)
    else
      let r := ERA.hankelRowLoop Markovs no ni mc.toNat 0 mo.toNat
        (zeroMat, zeroMat)
      ({ s1 with Hankel_mat := some r.1.1, Hankel_mat2 := some r.1.2 }, r.2)
  | _, _, _, _ => (s, some .attributeError)

/-- Result of the external `util.svd` oracle on an `m × n` array: the
singular-vector arrays `U`, `V`, the singular values `S`, and the column
count `width` of the arrays the oracle actually returned (the shared length
of `S` and of the columns of `U` and `V`). -/
structure SvdResult where
  U : Mat
  S : Vec
  V : Mat
  width : ℕ

/-- External numerical collaborators of `ERA._compute_ROM`, all outside the
sources under verification: `util.svd` (applied to an `m × n` Hankel
array), `N.linalg.eig(·)[0]` (applied to an `r × r` array, returning `r`
complex eigenvalues as (re, im) pairs), and the element-wise float powers
`**-0.5` and `**0.5`. -/
structure EraOracles where
  svd : Mat → ℕ → ℕ → SvdResult
  eig : Mat → ℕ → List (ℚ × ℚ)
  isqrt : ℚ → ℚ
  ssqrt : ℚ → ℚ

/-- Embedding of era.py lines 207-217: truncate the SVD factors to the
first `num_states` columns/entries and form
`A = diag(Er**-.5) * Ur.H * Hankel_mat2 * Vr * diag(Er**-.5)`,
`B = diag(Er**.5) * (Vr.H)[:, :num_inputs]`,
`C = Ur[:num_Markovs, :] * diag(Er**.5)`.
`m × n` is the Hankel shape, `width` the column count of the SVD arrays, so
the sliced factors have `r = min num_states width` columns.  Slices are
width/row restrictions of the function model: the `[:, :num_inputs]` slice
of `B` and the `[:num_Markovs, :]` slice of `C` bound which entries of the
returned functions are meaningful, exactly as in the numpy arrays. -/
def ERA.romFromSVD (isqrt ssqrt : ℚ → ℚ) (L : Mat) (sv : Vec) (R : Mat)
    (width m n num_states : ℕ) (H2 : Mat) : Mat × Mat × Mat :=
  let r := min num_states width
  let D := diagVec (fun i => isqrt (sv i))
  let Dp := diagVec (fun i => ssqrt (sv i))
  let A := mmul r (mmul n (mmul m (mmul r D (transposeMat L)) H2) R) D
  let B := mmul r Dp (transposeMat R)
  let C := mmul r L Dp
  (A, B, C)

/-- Model of numpy's ordering in `eigenvalue >= 1.` (era.py line 219):
numpy compares complex values lexicographically, real part first, imaginary
part as tie-break; no magnitude is taken. -/
def npGE1 (e : ℚ × ℚ) : Bool :=
  decide (1 < e.1 ∨ (e.1 = 1 ∧ 0 ≤ e.2))

/-- Embedding of `(N.linalg.eig(A)[0] >= 1.).any()` on the eigenvalue list. -/
def unstableAny (eigs : List (ℚ × ℚ)) : Bool := eigs.any npGE1

/-- Squared magnitude of a complex value given as a (re, im) pair; the
magnitude is `≥ 1` iff the squared magnitude is. -/
def magSq (e : ℚ × ℚ) : ℚ := e.1 ^ 2 + e.2 ^ 2

/-- Embedding of `ERA._compute_ROM` (era.py lines 197-220) as a state
transition: set the Markov array, overwrite `self.mc`/`self.mo` with this
call's keyword arguments, assemble the Hankel pair, factor, truncate, build
`A`, `B`, `C`, and run the verbose stability check.  The returned
`Except` is the raised error, or on success the Boolean
`(eig(A) >= 1).any() and verbose` deciding whether the unstable-ROM warning
was printed.  On error the mutated state at the raise point is returned
alongside, as the Python instance retains it. -/
def ERA.compute_ROM (o : EraOracles) (s : ERAState) (t : Tensor3)
    (num_states : ℕ) (mc mo : Option ℤ) : ERAState × Except EraErr Bool :=
  let s2 := { ERA.set_Markovs s t with mc := mc, mo := mo }
  match ERA.assemble_Hankel s2 with
  | (s3, some e) => (s3, .error e)
  | (s3, none) =>
    match s3.Hankel_mat, s3.Hankel_mat2, s3.mo, s3.mc, s3.num_Markovs,
        s3.num_inputs with
    | some H, some H2, some moQ, some mcQ, some no, some ni =>
      let m := no * moQ.toNat
      let n := ni * mcQ.toNat
      let res := o.svd H m n
      let s4 := { s3 with L_sing_vecs := some res.U, sing_vals := some res.S,
                          R_sing_vecs := some res.V }
      let abc := ERA.romFromSVD o.isqrt o.ssqrt res.U res.S res.V res.width
        m n num_states H2
      let s5 := { s4 with A := some abc.1, B := some abc.2.1,
                          C := some abc.2.2 }
      let r := min num_states res.width
      let warned := unstableAny (o.eig abc.1 r) && s5.verbose
      (s5, .ok warned)
    | _, _, _, _, _, _ => (s3, .error .attributeError)

/-! ### Spec-side ERA reconstruction formulas (spec §4.5 step 5) -/

/-- Spec formula `A = diag(Er^-1/2)·Ur*·H′·Vr·diag(Er^-1/2)` entrywise,
for an `m × n` Hankel shape and truncated factors `Ur = U[:, :r]`,
`Er = Σ[:r]`, `Vr = V[:, :r]`. -/
def AspecERA (isqrt : ℚ → ℚ) (U : Mat) (sv : Vec) (V : Mat) (m n : ℕ)
    (H2 : Mat) : Mat :=
  fun i j =>
    isqrt (sv i) *
      (∑ x in Finset.range m, ∑ y in Finset.range n, U x i * H2 x y * V y j) *
      isqrt (sv j)

/-- Spec formula `B = diag(Er^1/2)·Vr*[:, :num_inputs]` entrywise. -/
def BspecERA (ssqrt : ℚ → ℚ) (sv : Vec) (V : Mat) : Mat :=
  fun i j => ssqrt (sv i) * V j i

/-- Spec formula `C = Ur[:num_outputs, :]·diag(Er^1/2)` entrywise. -/
def CspecERA (ssqrt : ℚ → ℚ) (U : Mat) (sv : Vec) : Mat :=
  fun i j => U i j * ssqrt (sv j)

/-! ### make_sampled_format (era.py lines 26-65) -/

/-- Model of `N.round`: round half to even (numpy banker's rounding). -/
def roundHalfEven (q : ℚ) : ℤ :=
  if q - ⌊q⌋ < 1 / 2 then ⌊q⌋
  else if 1 / 2 < q - ⌊q⌋ then ⌊q⌋ + 1
  else if Even ⌊q⌋ then ⌊q⌋ else ⌊q⌋ + 1

/-- Model of the strided assignments of era.py lines 59-64: allocate a
length `2*(n-1)` array `corr` and set `corr[::2] = xs[:-1]`,
`corr[1::2] = xs[1:]`, for `xs` read off through `get`. -/
def doubleSampleIdx (n : ℕ) (get : ℕ → α) : List α :=
  (List.range (2 * (n - 1))).map
    (fun i => if i % 2 = 0 then get (i / 2) else get (i / 2 + 1))

/-- Embedding of `make_sampled_format` (era.py lines 26-65) for a 3-axis
Markov array: check the time axis lengths agree (`RuntimeError`), read
`dt = times[1] - times[0]` (an `IndexError` when fewer than two samples
exist), reject spacing deviating from `dt` by more than `dt_tol`
(`ValueError`, the spec's `DataError`), then return the integer time steps
`round((times - times[0])/dt)` and the Markov samples, both duplicated into
the `[0 1 1 2 2 3 ...]` interleaving, together with `dt`. -/
def make_sampled_format (times : List ℚ) (M : Tensor3) (dt_tol : ℚ) :
    Except EraErr (List ℤ × List Mat × ℚ) :=
  let n := M.data.length
  if n ≠ times.length then .error .sizeMismatch
  else
    match times with
    | t0 :: t1 :: _ =>
      let dt := t1 - t0
      let diffs := (List.range (times.length - 1)).map
        (fun i => times.getD (i + 1) 0 - times.getD i 0)
      if diffs.any (fun d => decide (dt_tol < |d - dt|)) then
        .error .dataError
      else
        let steps : List ℤ := times.map (fun tt => roundHalfEven ((tt - t0) / dt))
        .ok (doubleSampleIdx n (fun i => steps.getD i 0),
             doubleSampleIdx n (fun i => M.data.getD i zeroMat), dt)
    | _ => .error .indexError

/-! ### Concrete fixtures used by the counterexample, code-bug and
witness theorems -/

def constMat (q : ℚ) : Mat := fun _ _ => q

def tERA6 : Tensor3 :=
  ⟨[constMat 0, constMat 1, constMat 2, constMat 3, constMat 4, constMat 5],
   1, 1⟩

def tC2 : Tensor3 :=
  ⟨[constMat 1, constMat (-2), zeroMat, zeroMat, zeroMat, zeroMat], 1, 1⟩

def svdOne : Mat → ℕ → ℕ → SvdResult :=
  fun _ _ _ => ⟨constMat 1, fun _ => 1, constMat 1, 1⟩

def eigDiag : Mat → ℕ → List (ℚ × ℚ) :=
  fun M r => (List.range r).map (fun i => (M i i, 0))

def sqrtAtOne : ℚ → ℚ := fun q => if q = 1 then 1 else 0

def oraclesC2 : EraOracles := ⟨svdOne, eigDiag, sqrtAtOne, sqrtAtOne⟩

def s0C3 : ERAState :=
  { ERA.init (some 7) (some 7) true with num_time_steps := some 99 }

def tC4 : Tensor3 :=
  ⟨[constMat 0, constMat 1, constMat 2, constMat 3, constMat 4, constMat 5,
    constMat 6], 1, 1⟩

def tC4b : Tensor3 :=
  ⟨[constMat 0, constMat 1, constMat 2, constMat 3, constMat 4, constMat 5,
    constMat 6, constMat 7], 1, 1⟩

def tC7 : Tensor3 := ⟨[constMat 5, constMat 6, constMat 7, constMat 8], 1, 1⟩

def sC8 : BPODState :=
  { BPOD.init with L_sing_vecs := some (constMat 3),
                   R_sing_vecs := some (constMat 2), sing_vals := some [1] }

/-! ## Helper lemmas and claim theorems -/

lemma mmul_diagList_entry (R : Mat) (l : List ℚ) (i j : ℕ)
    (hj : j < l.length) :
    mmul l.length R (diagList l) i j = R i j * l.getD j 0 := by
  unfold mmul diagList
  rw [Finset.sum_eq_single j]
  · simp
  · intro x _ hxj
    simp [hxj]
  · intro hj'
    exact absurd (Finset.mem_range.mpr hj) hj'

lemma diagVec_mmul_entry (v : Vec) (M : Mat) (k i j : ℕ) (hi : i < k) :
    mmul k (diagVec v) M i j = v i * M i j := by
  unfold mmul diagVec
  rw [Finset.sum_eq_single i]
  · simp
  · intro x _ hxi
    simp [Ne.symm hxi]
  · intro hi'
    exact absurd (Finset.mem_range.mpr hi) hi'

lemma mmul_diagVec_entry (M : Mat) (v : Vec) (k i j : ℕ) (hj : j < k) :
    mmul k M (diagVec v) i j = M i j * v j := by
  unfold mmul diagVec
  rw [Finset.sum_eq_single j]
  · simp
  · intro x _ hxj
    simp [hxj]
  · intro hj'
    exact absurd (Finset.mem_range.mpr hj) hj'

lemma getD_of_get? (l : List Mat) (idx : ℕ) (h : idx < l.length) :
    l.get? idx = some (l.getD idx zeroMat) := by
  rw [List.getD_eq_getD_get?]
  cases hg : l.get? idx with
  | none => exact absurd (List.get?_eq_none.mp hg) (by omega)
  | some M => rfl

lemma hankelColLoop_spec (Markovs : List Mat) (no ni row : ℕ) :
    ∀ (k col : ℕ) (acc : Mat × Mat),
      (∀ c, c < k → 2 * (row + col + c) + 1 < Markovs.length) →
      (ERA.hankelColLoop Markovs no ni row col k acc).2 = none ∧
      ∀ i j,
        (row * no ≤ i → i < row * no + no → col * ni ≤ j →
          j < col * ni + k * ni →
          (ERA.hankelColLoop Markovs no ni row col k acc).1.1 i j =
            (Markovs.getD (2 * (row + j / ni)) zeroMat) (i - row * no) (j % ni) ∧
          (ERA.hankelColLoop Markovs no ni row col k acc).1.2 i j =
            (Markovs.getD (2 * (row + j / ni) + 1) zeroMat) (i - row * no) (j % ni)) ∧
        (¬(row * no ≤ i ∧ i < row * no + no ∧ col * ni ≤ j ∧
            j < col * ni + k * ni) →
          (ERA.hankelColLoop Markovs no ni row col k acc).1.1 i j = acc.1 i j ∧
          (ERA.hankelColLoop Markovs no ni row col k acc).1.2 i j = acc.2 i j) := by
  intro k
  induction k with
  | zero =>
    intro col acc _
    refine ⟨rfl, fun i j => ⟨fun _ _ h3 h4 => ?_, fun _ => ⟨rfl, rfl⟩⟩⟩
    omega
  | succ k ih =>
    intro col acc hidx
    have e1 : (col + 1) * ni = col * ni + ni := by ring
    have e2 : (k + 1) * ni = k * ni + ni := by ring
    have hlt1 : 2 * (row + col) + 1 < Markovs.length := by
      have := hidx 0 (Nat.succ_pos k)
      omega
    have hlt0 : 2 * (row + col) < Markovs.length := by omega
    have hget0 := getD_of_get? Markovs (2 * (row + col)) hlt0
    have hget1 := getD_of_get? Markovs (2 * (row + col) + 1) hlt1
    have hstep : ERA.hankelColLoop Markovs no ni row col (k + 1) acc =
        ERA.hankelColLoop Markovs no ni row (col + 1) k
          (setBlock acc.1 (row * no) (col * ni) no ni
            (Markovs.getD (2 * (row + col)) zeroMat),
           setBlock acc.2 (row * no) (col * ni) no ni
            (Markovs.getD (2 * (row + col) + 1) zeroMat)) := by
      rw [ERA.hankelColLoop, hget0, hget1]
    obtain ⟨iherr, ihentry⟩ := ih (col + 1)
      (setBlock acc.1 (row * no) (col * ni) no ni
        (Markovs.getD (2 * (row + col)) zeroMat),
       setBlock acc.2 (row * no) (col * ni) no ni
        (Markovs.getD (2 * (row + col) + 1) zeroMat))
      (fun c hc => by
        have := hidx (c + 1) (by omega)
        have e : row + col + (c + 1) = row + (col + 1) + c := by ring
        rw [e] at this
        exact this)
    rw [hstep]
    refine ⟨iherr, fun i j => ?_⟩
    obtain ⟨ihin, ihout⟩ := ihentry i j
    constructor
    · intro h1 h2 h3 h4
      by_cases hcase : (col + 1) * ni ≤ j
      · exact ihin h1 h2 hcase (by omega)
      · have hj2 : j < col * ni + ni := by omega
        have hdiv : j / ni = col := by
          have hni : 0 < ni := by omega
          apply Nat.div_eq_of_lt_le
          · exact h3
          · omega
        have hmod : j % ni = j - col * ni := by
          have hni : 0 < ni := by omega
          have hjr : j = (j - col * ni) + col * ni := by omega
          conv =>
            lhs
            rw [hjr]
          rw [Nat.add_mul_mod_self_right, Nat.mod_eq_of_lt (by omega)]
        have hout := ihout (by
          rintro ⟨-, -, hc3, -⟩
          exact hcase hc3)
        rw [hout.1, hout.2, hdiv, hmod]
        constructor
        · show setBlock _ _ _ _ _ _ i j = _
          rw [setBlock, if_pos ⟨h1, h2, h3, hj2⟩]
        · show setBlock _ _ _ _ _ _ i j = _
          rw [setBlock, if_pos ⟨h1, h2, h3, hj2⟩]
    · intro hnot
      have hout := ihout (by
        rintro ⟨a, b, c, d⟩
        exact hnot ⟨a, b, by omega, by omega⟩)
      have hmiss : ¬(row * no ≤ i ∧ i < row * no + no ∧ col * ni ≤ j ∧
          j < col * ni + ni) := by
        rintro ⟨a, b, c, d⟩
        exact hnot ⟨a, b, c, by omega⟩
      rw [hout.1, hout.2]
      constructor
      · show setBlock _ _ _ _ _ _ i j = _
        rw [setBlock, if_neg hmiss]
      · show setBlock _ _ _ _ _ _ i j = _
        rw [setBlock, if_neg hmiss]

lemma hankelRowLoop_spec (Markovs : List Mat) (no ni mc : ℕ) :
    ∀ (k row : ℕ) (acc : Mat × Mat),
      (∀ r c, r < k → c < mc → 2 * (row + r + c) + 1 < Markovs.length) →
      (ERA.hankelRowLoop Markovs no ni mc row k acc).2 = none ∧
      ∀ i j,
        (row * no ≤ i → i < row * no + k * no → j < mc * ni →
          (ERA.hankelRowLoop Markovs no ni mc row k acc).1.1 i j =
            (Markovs.getD (2 * (i / no + j / ni)) zeroMat) (i % no) (j % ni) ∧
          (ERA.hankelRowLoop Markovs no ni mc row k acc).1.2 i j =
            (Markovs.getD (2 * (i / no + j / ni) + 1) zeroMat) (i % no) (j % ni)) ∧
        (¬(row * no ≤ i ∧ i < row * no + k * no ∧ j < mc * ni) →
          (ERA.hankelRowLoop Markovs no ni mc row k acc).1.1 i j = acc.1 i j ∧
          (ERA.hankelRowLoop Markovs no ni mc row k acc).1.2 i j = acc.2 i j) := by
  intro k
  induction k with
  | zero =>
    intro row acc _
    refine ⟨rfl, fun i j => ⟨fun h1 h2 _ => ?_, fun _ => ⟨rfl, rfl⟩⟩⟩
    omega
  | succ k ih =>
    intro row acc hidx
    have e1 : (row + 1) * no = row * no + no := by ring
    have e2 : (k + 1) * no = k * no + no := by ring
    obtain ⟨colerr, colentry⟩ := hankelColLoop_spec Markovs no ni row mc 0 acc
      (fun c hc => by
        have := hidx 0 c (Nat.succ_pos k) hc
        have e : row + 0 + c = row + c := by ring
        omega)
    have hstep : ERA.hankelRowLoop Markovs no ni mc row (k + 1) acc =
        ERA.hankelRowLoop Markovs no ni mc (row + 1) k
          (ERA.hankelColLoop Markovs no ni row 0 mc acc).1 := by
      rw [ERA.hankelRowLoop]
      rcases hres : ERA.hankelColLoop Markovs no ni row 0 mc acc with ⟨acc1, err⟩
      rw [hres] at colerr
      simp at colerr
      subst colerr
      rfl
    obtain ⟨iherr, ihentry⟩ := ih (row + 1)
      (ERA.hankelColLoop Markovs no ni row 0 mc acc).1
      (fun r c hr hc => by
        have := hidx (r + 1) c (by omega) hc
        have e : row + (r + 1) + c = row + 1 + r + c := by ring
        rw [e] at this
        exact this)
    rw [hstep]
    refine ⟨iherr, fun i j => ?_⟩
    obtain ⟨ihin, ihout⟩ := ihentry i j
    obtain ⟨colin, colout⟩ := colentry i j
    constructor
    · intro h1 h2 h3
      by_cases hcase : (row + 1) * no ≤ i
      · exact ihin hcase (by omega) h3
      · have hi2 : i < row * no + no := by omega
        have hdiv : i / no = row := by
          apply Nat.div_eq_of_lt_le
          · exact h1
          · omega
        have hmod : i % no = i - row * no := by
          have hir : i = (i - row * no) + row * no := by omega
          conv =>
            lhs
            rw [hir]
          rw [Nat.add_mul_mod_self_right, Nat.mod_eq_of_lt (by omega)]
        have hout := ihout (by
          rintro ⟨hc1, -, -⟩
          exact hcase hc1)
        rw [hout.1, hout.2, hdiv, hmod]
        have hcolin := colin h1 hi2 (by omega) (by omega)
        exact hcolin
    · intro hnot
      have hout := ihout (by
        rintro ⟨a, b, c⟩
        exact hnot ⟨by omega, by omega, c⟩)
      rw [hout.1, hout.2]
      exact colout (by
        rintro ⟨a, b, -, d⟩
        exact hnot ⟨a, by omega, by omega⟩)

lemma hankelColLoop_err (Markovs : List Mat) (no ni row : ℕ) :
    ∀ (k col : ℕ) (acc : Mat × Mat),
      (ERA.hankelColLoop Markovs no ni row col k acc).2 = none ∨
      (ERA.hankelColLoop Markovs no ni row col k acc).2 = some .indexError := by
  intro k
  induction k with
  | zero => intro col acc; exact Or.inl rfl
  | succ k ih =>
    intro col acc
    rw [ERA.hankelColLoop]
    cases Markovs.get? (2 * (row + col)) with
    | none => exact Or.inr rfl
    | some M =>
      cases Markovs.get? (2 * (row + col) + 1) with
      | none => exact Or.inr rfl
      | some M2 => exact ih (col + 1) _

lemma hankelRowLoop_err (Markovs : List Mat) (no ni mc : ℕ) :
    ∀ (k row : ℕ) (acc : Mat × Mat),
      (ERA.hankelRowLoop Markovs no ni mc row k acc).2 = none ∨
      (ERA.hankelRowLoop Markovs no ni mc row k acc).2 = some .indexError := by
  intro k
  induction k with
  | zero => intro row acc; exact Or.inl rfl
  | succ k ih =>
    intro row acc
    rw [ERA.hankelRowLoop]
    rcases hres : ERA.hankelColLoop Markovs no ni row 0 mc acc with ⟨acc1, err⟩
    cases err with
    | none => exact ih (row + 1) acc1
    | some e =>
      rcases hankelColLoop_err Markovs no ni row mc 0 acc with h | h <;>
        rw [hres] at h <;> simp at h
      subst h
      exact Or.inr rfl

lemma div_add_eq_of_block (x y q : ℕ) (hy : y < q) : (x * q + y) / q = x := by
  apply Nat.div_eq_of_lt_le
  · omega
  · have : (x + 1) * q = x * q + q := by ring
    omega

lemma mod_eq_of_block (x y q : ℕ) (hy : y < q) : (x * q + y) % q = y := by
  have e : x * q + y = y + x * q := by ring
  rw [e, Nat.add_mul_mod_self_right, Nat.mod_eq_of_lt hy]

/-- Claim C4 (amended): for a 3-axis Markov tensor (trimmed to even length
by dropping the last time step when the length is odd) and block counts
`mo`, `mc` that pass the configuration check and — this condition the
counterexample forces on the claim — whose accessed time indices
`2*(row+col)+1` all lie within the trimmed data, assembly succeeds,
block (row, col) of `Hankel_mat` equals `Markovs[2*(row+col)]` and of
`Hankel_mat2` equals `Markovs[2*(row+col)+1]`, and both matrices vanish
outside the `mo*no × mc*ni` region.  Without the index condition the claim
fails: block counts can pass `mo + mc + 2 ≤ T` yet reach past the data, as
the counterexample theorem shows. -/
theorem era_hankel_blocks (s : ERAState) (t : Tensor3) (mo mc : ℕ)
    (hcfg : mo + mc + 2 ≤ (ERA.trimMarkovs t.data).length)
    (hidx : ∀ row col, row < mo → col < mc →
      2 * (row + col) + 1 < (ERA.trimMarkovs t.data).length) :
    (ERA.assemble_Hankel
        { ERA.set_Markovs s t with mo := some (mo : ℤ), mc := some (mc : ℤ) }).2
      = none ∧
    ∃ H H2,
      (ERA.assemble_Hankel
          { ERA.set_Markovs s t with mo := some (mo : ℤ), mc := some (mc : ℤ) }).1.Hankel_mat
        = some H ∧
      (ERA.assemble_Hankel
          { ERA.set_Markovs s t with mo := some (mo : ℤ), mc := some (mc : ℤ) }).1.Hankel_mat2
        = some H2 ∧
      (∀ row col a b, row < mo → col < mc → a < t.no → b < t.ni →
        H (row * t.no + a) (col * t.ni + b) =
          ((ERA.trimMarkovs t.data).getD (2 * (row + col)) zeroMat) a b ∧
        H2 (row * t.no + a) (col * t.ni + b) =
          ((ERA.trimMarkovs t.data).getD (2 * (row + col) + 1) zeroMat) a b) ∧
      (∀ i j, mo * t.no ≤ i ∨ mc * t.ni ≤ j → H i j = 0 ∧ H2 i j = 0) ∧
      (t.data.length % 2 = 1 → ERA.trimMarkovs t.data = t.data.dropLast) := by
  obtain ⟨looperr, loopentry⟩ := hankelRowLoop_spec (ERA.trimMarkovs t.data)
    t.no t.ni mc mo 0 (zeroMat, zeroMat)
    (fun r c hr hc => by
      have := hidx r c hr hc
      omega)
  have hasm : ERA.assemble_Hankel
      { ERA.set_Markovs s t with mo := some (mo : ℤ), mc := some (mc : ℤ) } =
      ({ ERA.set_Markovs s t with
          mo := some (mo : ℤ),
          mc := some (mc : ℤ),
          Hankel_mat := some (ERA.hankelRowLoop (ERA.trimMarkovs t.data) t.no
            t.ni mc 0 mo (zeroMat, zeroMat)).1.1,
          Hankel_mat2 := some (ERA.hankelRowLoop (ERA.trimMarkovs t.data) t.no
            t.ni mc 0 mo (zeroMat, zeroMat)).1.2 },
       (ERA.hankelRowLoop (ERA.trimMarkovs t.data) t.no t.ni mc 0 mo
         (zeroMat, zeroMat)).2) := by
    have hc2 : ¬((((ERA.trimMarkovs t.data).length : ℤ)) < (mo : ℤ) + (mc : ℤ) + 2) := by
      omega
    have hc3 : ¬((0 < t.no ∧ (mo : ℤ) < 0) ∨ (0 < t.ni ∧ (mc : ℤ) < 0)) := by
      omega
    simp only [ERA.assemble_Hankel, ERA.set_Markovs]
    simp [hc2, hc3, Int.toNat_natCast]
  rw [hasm]
  refine ⟨looperr, (ERA.hankelRowLoop (ERA.trimMarkovs t.data) t.no t.ni mc 0
    mo (zeroMat, zeroMat)).1.1,
    (ERA.hankelRowLoop (ERA.trimMarkovs t.data) t.no t.ni mc 0 mo
      (zeroMat, zeroMat)).1.2, rfl, rfl, ?_, ?_, ?_⟩
  · intro row col a b hrow hcol ha hb
    obtain ⟨inwin, -⟩ := loopentry (row * t.no + a) (col * t.ni + b)
    have hrow1 : (row + 1) * t.no ≤ mo * t.no := Nat.mul_le_mul_right _ (by omega)
    have hrow2 : (row + 1) * t.no = row * t.no + t.no := by ring
    have hcol1 : (col + 1) * t.ni ≤ mc * t.ni := Nat.mul_le_mul_right _ (by omega)
    have hcol2 : (col + 1) * t.ni = col * t.ni + t.ni := by ring
    have := inwin (by omega) (by omega) (by omega)
    rw [div_add_eq_of_block row a t.no ha, div_add_eq_of_block col b t.ni hb,
      mod_eq_of_block row a t.no ha, mod_eq_of_block col b t.ni hb] at this
    exact this
  · intro i j hij
    obtain ⟨-, outwin⟩ := loopentry i j
    exact outwin (by omega)
  · intro hodd
    rw [ERA.trimMarkovs, if_neg (by omega)]

/-- Claim C6: with both block counts unspecified, assembly defaults
`mo = mc = (T-2)/4` under Python-2 flooring division; with supplied `mo`,
`mc` the configuration error is raised exactly when `mo + mc + 2 > T`;
concretely at trimmed length T = 6, `mo = mc = 2` assembles with no error
while `mo = mc = 3` raises the configuration error. -/
theorem era_hankel_defaults_config (s : ERAState) (t : Tensor3) (mo mc : ℤ) :
    ((ERA.assemble_Hankel
        { ERA.set_Markovs s t with mo := none, mc := none }).1.mo =
      some ((((ERA.trimMarkovs t.data).length : ℤ) - 2).fdiv 4) ∧
     (ERA.assemble_Hankel
        { ERA.set_Markovs s t with mo := none, mc := none }).1.mc =
      some ((((ERA.trimMarkovs t.data).length : ℤ) - 2).fdiv 4)) ∧
    ((ERA.assemble_Hankel
        { ERA.set_Markovs s t with mo := some mo, mc := some mc }).2 =
      some .configError ↔
      ((ERA.trimMarkovs t.data).length : ℤ) < mo + mc + 2) ∧
    (ERA.assemble_Hankel
      { ERA.set_Markovs (ERA.init none none true) tERA6 with
          mo := some 2, mc := some 2 }).2 = none ∧
    (ERA.assemble_Hankel
      { ERA.set_Markovs (ERA.init none none true) tERA6 with
          mo := some 3, mc := some 3 }).2 = some .configError := by
  refine ⟨⟨?_, ?_⟩, ?_, ?_, ?_⟩
  · simp only [ERA.assemble_Hankel, ERA.set_Markovs]
    split_ifs <;> simp_all
  · simp only [ERA.assemble_Hankel, ERA.set_Markovs]
    split_ifs <;> simp_all
  · by_cases hcond : ((ERA.trimMarkovs t.data).length : ℤ) < mo + mc + 2
    · constructor
      · intro _
        exact hcond
      · intro _
        simp only [ERA.assemble_Hankel, ERA.set_Markovs]
        simp [hcond]
    · constructor
      · intro h2
        exfalso
        simp only [ERA.assemble_Hankel, ERA.set_Markovs] at h2
        simp [hcond] at h2
        split_ifs at h2
        · simp at h2
        · rcases hankelRowLoop_err (ERA.trimMarkovs t.data) t.no t.ni
            mc.toNat mo.toNat 0 (zeroMat, zeroMat) with hn | hi
          · rw [hn] at h2
            simp at h2
          · rw [hi] at h2
            simp at h2
      · intro h
        exact absurd h hcond
  · simp [ERA.assemble_Hankel, ERA.set_Markovs, ERA.trimMarkovs, tERA6,
      ERA.init, ERA.hankelRowLoop, ERA.hankelColLoop, List.range_succ,
      constMat, setBlock, zeroMat]
  · simp [ERA.assemble_Hankel, ERA.set_Markovs, ERA.trimMarkovs, tERA6,
      ERA.init, List.range_succ]

lemma assemble_Hankel_preserves (s : ERAState) :
    (ERA.assemble_Hankel s).1.L_sing_vecs = s.L_sing_vecs ∧
    (ERA.assemble_Hankel s).1.sing_vals = s.sing_vals ∧
    (ERA.assemble_Hankel s).1.R_sing_vecs = s.R_sing_vecs ∧
    (ERA.assemble_Hankel s).1.A = s.A ∧
    (ERA.assemble_Hankel s).1.B = s.B ∧
    (ERA.assemble_Hankel s).1.C = s.C ∧
    (ERA.assemble_Hankel s).1.Markovs = s.Markovs ∧
    (ERA.assemble_Hankel s).1.num_time_steps = s.num_time_steps ∧
    (ERA.assemble_Hankel s).1.num_Markovs = s.num_Markovs ∧
    (ERA.assemble_Hankel s).1.num_inputs = s.num_inputs ∧
    (ERA.assemble_Hankel s).1.verbose = s.verbose := by
  obtain ⟨mc, mo, Mk, T, no, ni, H, H2, L, sv, R, A, B, C, vb⟩ := s
  cases Mk <;> cases T <;> cases no <;> cases ni <;>
    simp only [ERA.assemble_Hankel] <;>
    first
      | simp
      | (split_ifs <;> simp)

lemma hankelRowLoop_ne_config (Markovs : List Mat) (no ni mcv rv kv : ℕ)
    (acc : Mat × Mat) :
    (ERA.hankelRowLoop Markovs no ni mcv rv kv acc).2 ≠ some .configError := by
  rcases hankelRowLoop_err Markovs no ni mcv kv rv acc with hn | hn <;>
    simp [hn]

lemma assemble_Hankel_configError_Hankel (s : ERAState)
    (h : (ERA.assemble_Hankel s).2 = some .configError) :
    (ERA.assemble_Hankel s).1.Hankel_mat = s.Hankel_mat ∧
    (ERA.assemble_Hankel s).1.Hankel_mat2 = s.Hankel_mat2 := by
  obtain ⟨mc, mo, Mk, T, no, ni, H, H2, L, sv, R, A, B, C, vb⟩ := s
  cases Mk <;> cases T <;> cases no <;> cases ni <;>
    simp only [ERA.assemble_Hankel] at h ⊢ <;>
    first
      | (simp_all; done)
      | (split_ifs at h ⊢ <;>
          first
            | (simp_all; done)
            | (simp only [Prod.snd] at h
               exact absurd h (hankelRowLoop_ne_config _ _ _ _ _ _ _)))

lemma assemble_Hankel_momc (s : ERAState) (Mk : List Mat) (T no ni : ℕ)
    (hM : s.Markovs = some Mk) (hT : s.num_time_steps = some T)
    (hno : s.num_Markovs = some no) (hni : s.num_inputs = some ni) :
    ((s.mo = none ∨ s.mc = none) →
      (ERA.assemble_Hankel s).1.mo = some (((T : ℤ) - 2).fdiv 4) ∧
      (ERA.assemble_Hankel s).1.mc = some (((T : ℤ) - 2).fdiv 4)) ∧
    (∀ a b, s.mo = some a → s.mc = some b →
      (ERA.assemble_Hankel s).1.mo = some a ∧
      (ERA.assemble_Hankel s).1.mc = some b) := by
  obtain ⟨mc, mo, Mk0, T0, no0, ni0, H, H2, L, sv, R, A, B, C, vb⟩ := s
  simp only at hM hT hno hni
  subst hM hT hno hni
  constructor
  · intro hdef
    simp only [ERA.assemble_Hankel]
    rw [if_pos hdef, if_pos hdef]
    split_ifs <;> simp
  · intro a b ha hb
    simp only at ha hb
    subst ha hb
    simp only [ERA.assemble_Hankel]
    split_ifs <;> simp_all

lemma compute_ROM_momc (o : EraOracles) (s : ERAState) (t : Tensor3)
    (ns : ℕ) (mc mo : Option ℤ) :
    (ERA.compute_ROM o s t ns mc mo).1.mo =
      (ERA.assemble_Hankel
        { ERA.set_Markovs s t with mc := mc, mo := mo }).1.mo ∧
    (ERA.compute_ROM o s t ns mc mo).1.mc =
      (ERA.assemble_Hankel
        { ERA.set_Markovs s t with mc := mc, mo := mo }).1.mc := by
  rw [ERA.compute_ROM]
  rcases hasm : ERA.assemble_Hankel
    { ERA.set_Markovs s t with mc := mc, mo := mo } with ⟨s3, err⟩
  cases err with
  | none =>
    simp only
    split <;> simp
  | some e0 => exact ⟨rfl, rfl⟩

/-- Claim C3 (amended): when `compute_ROM` raises, the SVD factors
`L_sing_vecs`, `sing_vals`, `R_sing_vecs` and the model matrices `A`, `B`,
`C` retain their prior values — the factored state is not entered — and on
the configuration error the Hankel matrices are also untouched; however
`Markovs`, `num_time_steps`, `mc` and `mo` are overwritten with the failing
call's values before the raise (see the counterexample theorem). -/
theorem era_failure_not_factored (o : EraOracles) (s : ERAState) (t : Tensor3)
    (ns : ℕ) (mc mo : Option ℤ) (s' : ERAState) (e : EraErr)
    (h : ERA.compute_ROM o s t ns mc mo = (s', Except.error e)) :
    s'.L_sing_vecs = s.L_sing_vecs ∧ s'.sing_vals = s.sing_vals ∧
    s'.R_sing_vecs = s.R_sing_vecs ∧ s'.A = s.A ∧ s'.B = s.B ∧ s'.C = s.C ∧
    (e = .configError →
      s'.Hankel_mat = s.Hankel_mat ∧ s'.Hankel_mat2 = s.Hankel_mat2) := by
  rw [ERA.compute_ROM] at h
  rcases hasm : ERA.assemble_Hankel
    { ERA.set_Markovs s t with mc := mc, mo := mo } with ⟨s3, err⟩
  rw [hasm] at h
  have hpres := assemble_Hankel_preserves
    { ERA.set_Markovs s t with mc := mc, mo := mo }
  rw [hasm] at hpres
  cases err with
  | some e0 =>
    simp only [Prod.mk.injEq, Except.error.injEq] at h
    obtain ⟨hs, he⟩ := h
    subst hs
    subst he
    refine ⟨hpres.1, hpres.2.1, hpres.2.2.1, hpres.2.2.2.1, hpres.2.2.2.2.1,
      hpres.2.2.2.2.2.1, ?_⟩
    intro hec
    subst hec
    have hc := assemble_Hankel_configError_Hankel
      { ERA.set_Markovs s t with mc := mc, mo := mo } (by rw [hasm])
    rw [hasm] at hc
    exact hc
  | none =>
    dsimp only at h
    split at h <;>
      simp only [Prod.mk.injEq, Except.error.injEq, reduceCtorEq,
        and_false] at h
    obtain ⟨hs, he⟩ := h
    subst hs
    refine ⟨hpres.1, hpres.2.1, hpres.2.2.1, hpres.2.2.2.1, hpres.2.2.2.2.1,
      hpres.2.2.2.2.2.1, ?_⟩
    intro hec
    rw [← he] at hec
    exact absurd hec (by simp)

/-- Claim C10: `compute_ROM` overwrites the stored `mc`/`mo` with this
call's keyword arguments regardless of the values previously held by the
instance (they do not appear in the result), and if either keyword is
`None` both are replaced by the default `(T-2)/4` (flooring division), so a
value supplied for one of them is silently ignored when the other is
unspecified. -/
theorem era_momc_overwrite (o : EraOracles) (s : ERAState) (t : Tensor3)
    (ns : ℕ) (mckw mokw : Option ℤ) :
    ((mokw = none ∨ mckw = none) →
      (ERA.compute_ROM o s t ns mckw mokw).1.mo =
        some ((((ERA.trimMarkovs t.data).length : ℤ) - 2).fdiv 4) ∧
      (ERA.compute_ROM o s t ns mckw mokw).1.mc =
        some ((((ERA.trimMarkovs t.data).length : ℤ) - 2).fdiv 4)) ∧
    (∀ a b, mckw = some a → mokw = some b →
      (ERA.compute_ROM o s t ns mckw mokw).1.mo = some b ∧
      (ERA.compute_ROM o s t ns mckw mokw).1.mc = some a) := by
  obtain ⟨hmo, hmc⟩ := compute_ROM_momc o s t ns mckw mokw
  have hfields := assemble_Hankel_momc
    { ERA.set_Markovs s t with mc := mckw, mo := mokw }
    (ERA.trimMarkovs t.data) (ERA.trimMarkovs t.data).length t.no t.ni
    rfl rfl rfl rfl
  constructor
  · intro hdef
    have := hfields.1 hdef
    rw [hmo, hmc]
    exact this
  · intro a b ha hb
    have := hfields.2 b a hb ha
    rw [hmo, hmc]
    exact this

/-- Claim C5: the ROM reconstruction of era.py lines 207-217 agrees
entrywise with the spec formulas `A = diag(Er^-1/2)*Ur^H*H2*Vr*diag(Er^-1/2)`,
`B = diag(Er^1/2)*(Vr^H)[:, :num_inputs]` and
`C = Ur[:num_outputs, :]*diag(Er^1/2)` built from the factors truncated to
the first `num_states` columns/entries (`r = min num_states width`), on the
index ranges of the produced arrays. -/
theorem era_rom_matches_spec (isqrt ssqrt : ℚ → ℚ) (L : Mat) (sv : Vec)
    (R : Mat) (H2 : Mat) (width m n ns nin nout : ℕ) (i j : ℕ) :
    (i < min ns width → j < min ns width →
      (ERA.romFromSVD isqrt ssqrt L sv R width m n ns H2).1 i j =
        AspecERA isqrt L sv R m n H2 i j) ∧
    (i < min ns width → j < nin →
      (ERA.romFromSVD isqrt ssqrt L sv R width m n ns H2).2.1 i j =
        BspecERA ssqrt sv R i j) ∧
    (i < nout → j < min ns width →
      (ERA.romFromSVD isqrt ssqrt L sv R width m n ns H2).2.2 i j =
        CspecERA ssqrt L sv i j) := by
  refine ⟨?_, ?_, ?_⟩
  · intro hi hj
    show mmul (min ns width)
        (mmul n (mmul m (mmul (min ns width)
          (diagVec (fun x => isqrt (sv x))) (transposeMat L)) H2) R)
        (diagVec (fun x => isqrt (sv x))) i j = _
    rw [mmul_diagVec_entry _ _ _ i j hj]
    have hX : ∀ y, mmul m (mmul (min ns width)
        (diagVec (fun x => isqrt (sv x))) (transposeMat L)) H2 i y =
        ∑ x in Finset.range m, isqrt (sv i) * L x i * H2 x y := by
      intro y
      show (∑ x in Finset.range m, mmul (min ns width)
          (diagVec (fun x => isqrt (sv x))) (transposeMat L) i x * H2 x y) = _
      refine Finset.sum_congr rfl (fun x _ => ?_)
      rw [diagVec_mmul_entry _ _ _ _ _ hi]
      rfl
    show (∑ y in Finset.range n, mmul m (mmul (min ns width)
        (diagVec (fun x => isqrt (sv x))) (transposeMat L)) H2 i y * R y j) *
        isqrt (sv j) = _
    rw [Finset.sum_congr rfl (fun y _ => by rw [hX y])]
    unfold AspecERA
    rw [mul_comm (isqrt (sv i))
      (∑ x in Finset.range m, ∑ y in Finset.range n, L x i * H2 x y * R y j)]
    congr 1
    simp only [Finset.sum_mul, Finset.mul_sum]
    rw [Finset.sum_comm]
    refine Finset.sum_congr rfl (fun y _ => ?_)
    refine Finset.sum_congr rfl (fun x _ => ?_)
    ring
  · intro hi _
    show mmul (min ns width) (diagVec (fun x => ssqrt (sv x)))
        (transposeMat R) i j = _
    rw [diagVec_mmul_entry _ _ _ _ _ hi]
    rfl
  · intro _ hj
    show mmul (min ns width) L (diagVec (fun x => ssqrt (sv x))) i j = _
    rw [mmul_diagVec_entry _ _ _ _ _ hj]
    rfl

lemma getD_map_range (N : ℕ) (g : ℕ → α) (i : ℕ) (h : i < N) (d : α) :
    ((List.range N).map g).getD i d = g i := by
  rw [List.getD_eq_getD_get?, List.get?_map, List.get?_range h]
  rfl

lemma getD_map_lt (l : List α) (f : α → β) (i : ℕ) (h : i < l.length)
    (d : α) (d' : β) : (l.map f).getD i d' = f (l.getD i d) := by
  rw [List.getD_eq_getD_get?, List.get?_map, List.get?_eq_get h,
    List.getD_eq_getD_get?, List.get?_eq_get h]
  rfl

lemma roundHalfEven_intCast (z : ℤ) : roundHalfEven (z : ℚ) = z := by
  rw [roundHalfEven]
  rw [Int.floor_intCast]
  rw [if_pos (by norm_num)]

lemma doubleSampleIdx_length (n : ℕ) (g : ℕ → α) :
    (doubleSampleIdx n g).length = 2 * (n - 1) := by
  simp [doubleSampleIdx]

lemma doubleSampleIdx_even (n k : ℕ) (g : ℕ → α) (hk : k < n - 1) (d : α) :
    (doubleSampleIdx n g).getD (2 * k) d = g k := by
  rw [doubleSampleIdx, getD_map_range _ _ _ (by omega)]
  have h1 : 2 * k % 2 = 0 := by omega
  have h2 : 2 * k / 2 = k := by omega
  rw [if_pos h1, h2]

lemma doubleSampleIdx_odd (n k : ℕ) (g : ℕ → α) (hk : k < n - 1) (d : α) :
    (doubleSampleIdx n g).getD (2 * k + 1) d = g (k + 1) := by
  rw [doubleSampleIdx, getD_map_range _ _ _ (by omega)]
  have h1 : ¬((2 * k + 1) % 2 = 0) := by omega
  have h2 : (2 * k + 1) / 2 = k := by omega
  rw [if_neg h1, h2]

/-- Claim C7: on times `dt*[0..n-1]` (n ≥ 2, dt ≠ 0) with a Markov tensor
of matching leading dimension, `make_sampled_format` returns the integer
time steps `[0,1,1,2,2,3,...]` of length `2*(n-1)`, the Markov samples
duplicated in the same interleaved pattern, and the spacing `dt`; and for a
times list whose consecutive spacing deviates from `times[1]-times[0]` by
more than `dt_tol`, it raises the data error. -/
theorem era_make_sampled_format_spec :
    (∀ (times : List ℚ) (M : Tensor3) (dt tol : ℚ) (n : ℕ),
      2 ≤ n → times.length = n → M.data.length = n → dt ≠ 0 → 0 ≤ tol →
      (∀ i, i < n → times.getD i 0 = dt * i) →
      ∃ ts ms, make_sampled_format times M tol = .ok (ts, ms, dt) ∧
        ts.length = 2 * (n - 1) ∧ ms.length = 2 * (n - 1) ∧
        (∀ k, k < n - 1 →
          ts.getD (2 * k) 0 = (k : ℤ) ∧
          ts.getD (2 * k + 1) 0 = (k : ℤ) + 1 ∧
          ms.getD (2 * k) zeroMat = M.data.getD k zeroMat ∧
          ms.getD (2 * k + 1) zeroMat = M.data.getD (k + 1) zeroMat)) ∧
    (∀ (times : List ℚ) (t0 t1 : ℚ) (rest : List ℚ) (M : Tensor3) (tol : ℚ),
      times = t0 :: t1 :: rest → M.data.length = times.length →
      (∃ i, i < times.length - 1 ∧
        tol < |times.getD (i + 1) 0 - times.getD i 0 - (t1 - t0)|) →
      make_sampled_format times M tol = .error .dataError) := by
  constructor
  · intro times M dt tol n h2 hlen hMlen hdt htol hval
    obtain ⟨t0, t1, rest, rfl⟩ : ∃ t0 t1 rest, times = t0 :: t1 :: rest := by
      cases times with
      | nil => simp at hlen; omega
      | cons a tl =>
        cases tl with
        | nil => simp at hlen; omega
        | cons b tl2 => exact ⟨a, b, tl2, rfl⟩
    have hlen' : (t0 :: t1 :: rest).length = n := hlen
    have ht0 : t0 = 0 := by
      have := hval 0 (by omega)
      simpa using this
    have ht1 : t1 = dt := by
      have := hval 1 (by omega)
      simpa using this
    have hdt' : t1 - t0 = dt := by
      rw [ht0, ht1]
      ring
    have hanyf : ((List.range ((t0 :: t1 :: rest).length - 1)).map
        (fun i => (t0 :: t1 :: rest).getD (i + 1) 0 -
          (t0 :: t1 :: rest).getD i 0)).any
        (fun d => decide (tol < |d - (t1 - t0)|)) = false := by
      rw [List.any_eq_false]
      intro d hd
      obtain ⟨i, hi, hdi⟩ := List.mem_map.mp hd
      rw [List.mem_range] at hi
      have hv1 : (t0 :: t1 :: rest).getD (i + 1) 0 = dt * (i + 1 : ℕ) :=
        hval (i + 1) (by omega)
      have hv0 : (t0 :: t1 :: rest).getD i 0 = dt * (i : ℕ) :=
        hval i (by omega)
      have : d = dt := by
        rw [← hdi, hv1, hv0]
        push_cast
        ring
      subst this
      rw [hdt']
      simp
      linarith
    rw [make_sampled_format]
    rw [if_neg (by omega)]
    simp only
    rw [hanyf]
    simp only [Bool.false_eq_true, if_false]
    refine ⟨_, _, by rw [hdt'], ?_, ?_, ?_⟩
    · rw [doubleSampleIdx_length]
      simp at hlen
      omega
    · rw [doubleSampleIdx_length]
      simp at hlen
      omega
    · intro k hk
      have hn : (t0 :: t1 :: rest).length = n := hlen
      have hstep : ∀ i, i < n →
          ((t0 :: t1 :: rest).map
            (fun tt => roundHalfEven ((tt - t0) / dt))).getD i 0 =
          (i : ℤ) := by
        intro i hi
        rw [getD_map_lt _ _ _ (by omega) 0]
        rw [hval i hi, ht0]
        have : (dt * i - 0) / dt = (i : ℚ) := by
          field_simp
        rw [this]
        have : ((i : ℤ) : ℚ) = ((i : ℕ) : ℚ) := by push_cast; rfl
        rw [← this, roundHalfEven_intCast]
      have hMn : M.data.length = n := hMlen
      refine ⟨?_, ?_, ?_, ?_⟩
      · rw [hMn, doubleSampleIdx_even _ _ _ hk]
        exact hstep k (by omega)
      · rw [hMn, doubleSampleIdx_odd _ _ _ hk]
        refine (hstep (k + 1) (by omega)).trans ?_
        push_cast
        ring
      · rw [hMn, doubleSampleIdx_even _ _ _ hk]
      · rw [hMn, doubleSampleIdx_odd _ _ _ hk]
  · intro times t0 t1 rest M tol heq hlen hex
    subst heq
    rw [make_sampled_format]
    rw [if_neg (by omega)]
    simp only
    have hany : ((List.range ((t0 :: t1 :: rest).length - 1)).map
        (fun i => (t0 :: t1 :: rest).getD (i + 1) 0 -
          (t0 :: t1 :: rest).getD i 0)).any
        (fun d => decide (tol < |d - (t1 - t0)|)) = true := by
      rw [List.any_eq_true]
      obtain ⟨i, hi, habs⟩ := hex
      refine ⟨(t0 :: t1 :: rest).getD (i + 1) 0 - (t0 :: t1 :: rest).getD i 0,
        List.mem_map.mpr ⟨i, List.mem_range.mpr hi, rfl⟩, ?_⟩
      exact decide_eq_true habs
    rw [hany]
    simp

/-- Claim C8: with the decomposition populated, the direct
build-coefficient matrix equals `R_sing_vecs * diag(sing_vals^(-1/2))` and
the adjoint one equals `L_sing_vecs * diag(sing_vals^(-1/2))`, entrywise
equal to the spec formula `X * diag(sigma^(-1/2))`. -/
theorem bpod_build_coeff_formula (isqrt : ℚ → ℚ) (s : BPODState)
    (L R : Mat) (sv : List ℚ) (hL : s.L_sing_vecs = some L)
    (hR : s.R_sing_vecs = some R) (hsv : s.sing_vals = some sv) :
    ∃ Md Ma,
      BPOD.compute_direct_build_coeff_mat isqrt s = .ok Md ∧
      BPOD.compute_adjoint_build_coeff_mat isqrt s = .ok Ma ∧
      ∀ i j, j < sv.length →
        Md i j = buildCoeffSpec isqrt R sv i j ∧
        Ma i j = buildCoeffSpec isqrt L sv i j := by
  refine ⟨mmul sv.length R (diagList (sv.map isqrt)),
    mmul sv.length L (diagList (sv.map isqrt)), ?_, ?_, ?_⟩
  · rw [BPOD.compute_direct_build_coeff_mat, hR, hsv]
  · rw [BPOD.compute_adjoint_build_coeff_mat, hL, hsv]
  · intro i j hj
    have hlen : (sv.map isqrt).length = sv.length := by simp
    have hgetD : (sv.map isqrt).getD j 0 = isqrt (sv.getD j 0) :=
      getD_map_lt sv isqrt j hj 0 0
    constructor
    · rw [show mmul sv.length R (diagList (sv.map isqrt)) i j =
          mmul (sv.map isqrt).length R (diagList (sv.map isqrt)) i j by
            rw [hlen]]
      rw [mmul_diagList_entry R (sv.map isqrt) i j (by omega), hgetD]
      rfl
    · rw [show mmul sv.length L (diagList (sv.map isqrt)) i j =
          mmul (sv.map isqrt).length L (diagList (sv.map isqrt)) i j by
            rw [hlen]]
      rw [mmul_diagList_entry L (sv.map isqrt) i j (by omega), hgetD]
      rfl

/-- Claim C9: each build-coefficient computation raises `UndefinedError`
(the spec's `UndefinedStateError`) exactly when a required artifact is
absent — `R_sing_vecs` or `sing_vals` for direct modes, `L_sing_vecs` or
`sing_vals` for adjoint modes — and returns a matrix when both are
populated. -/
theorem bpod_mode_requires_decomp (isqrt : ℚ → ℚ) (s : BPODState) :
    ((s.R_sing_vecs = none ∨ s.sing_vals = none) →
      BPOD.compute_direct_build_coeff_mat isqrt s =
        .error .undefinedError) ∧
    ((s.L_sing_vecs = none ∨ s.sing_vals = none) →
      BPOD.compute_adjoint_build_coeff_mat isqrt s =
        .error .undefinedError) ∧
    (∀ R sv, s.R_sing_vecs = some R → s.sing_vals = some sv →
      ∃ M, BPOD.compute_direct_build_coeff_mat isqrt s = .ok M) ∧
    (∀ L sv, s.L_sing_vecs = some L → s.sing_vals = some sv →
      ∃ M, BPOD.compute_adjoint_build_coeff_mat isqrt s = .ok M) := by
  refine ⟨?_, ?_, ?_, ?_⟩
  · intro h
    rw [BPOD.compute_direct_build_coeff_mat]
    rcases h with h | h
    · rw [h]
    · rw [h]
      cases s.R_sing_vecs <;> rfl
  · intro h
    rw [BPOD.compute_adjoint_build_coeff_mat]
    rcases h with h | h
    · rw [h]
    · rw [h]
      cases s.L_sing_vecs <;> rfl
  · intro R sv hR hsv
    rw [BPOD.compute_direct_build_coeff_mat, hR, hsv]
    exact ⟨_, rfl⟩
  · intro L sv hL hsv
    rw [BPOD.compute_adjoint_build_coeff_mat, hL, hsv]
    exact ⟨_, rfl⟩

/-- Claim C1 (code bug): in the spec-modelled distributed run, after
`BPOD.get_decomp` loads `L = [[1]]`, `sigma = [1]`, `R = [[2]]` on rank
zero, every worker (rank 1 and rank zero alike) ends with
`R_sing_vecs = [[1]]` — the loaded `L_sing_vecs`, not the loaded
`R_sing_vecs` — because bpod.py line 79 passes `self.L_sing_vecs` to the
broadcast that should replicate `R_sing_vecs`.  `L_sing_vecs` and
`sing_vals` replicate correctly, and `BPOD.compute_SVD` (line 172)
broadcasts the right field, so the claimed invariant fails exactly at
`get_decomp`. -/
theorem bpod_get_decomp_bcast_bug :
    ((BPOD.get_decomp true (constMat 1) [1] (constMat 2)
      (fun _ => BPOD.init) 1).R_sing_vecs.map (fun M => M 0 0) = some 1) ∧
    ((BPOD.get_decomp true (constMat 1) [1] (constMat 2)
      (fun _ => BPOD.init) 0).R_sing_vecs.map (fun M => M 0 0) = some 1) ∧
    ((BPOD.get_decomp true (constMat 1) [1] (constMat 2)
      (fun _ => BPOD.init) 1).L_sing_vecs.map (fun M => M 0 0) = some 1) ∧
    ((BPOD.get_decomp true (constMat 1) [1] (constMat 2)
      (fun _ => BPOD.init) 1).sing_vals = some [1]) ∧
    ((BPOD.compute_SVD true (fun _ => (constMat 1, [1], constMat 2))
      (fun _ => BPOD.init) 1).R_sing_vecs.map (fun M => M 0 0) = some 2) ∧
    constMat 1 0 0 = 1 ∧ constMat 2 0 0 = 2 := by
  refine ⟨?_, ?_, ?_, ?_, ?_, rfl, rfl⟩ <;>
    simp [BPOD.get_decomp, BPOD.compute_SVD, bcastFrom0, BPOD.init, constMat]

/-- Claim C2 (code bug): an ERA run whose reconstructed `A` is the 1×1
matrix `[[-2]]` — eigenvalue `-2`, squared magnitude `4 ≥ 1`, an unstable
ROM — returns with no warning printed (`Except.ok false`), because era.py
line 219 compares eigenvalues with `>= 1.` (numpy's lexicographic complex
order) instead of taking magnitudes.  Further conjuncts record that the
assembled Hankel matrix is `[[1]]`, that the SVD oracle's factors
reconstruct that entry, and that the eigenvalue oracle is exact on 1×1
matrices. -/
theorem era_missing_instability_warning :
    (ERA.compute_ROM oraclesC2 (ERA.init none none true) tC2 1 none none).2 =
      Except.ok false ∧
    ((ERA.compute_ROM oraclesC2 (ERA.init none none true) tC2 1 none
      none).1.A.map (fun M => M 0 0)) = some (-2) ∧
    ((ERA.compute_ROM oraclesC2 (ERA.init none none true) tC2 1 none
      none).1.Hankel_mat.map (fun M => M 0 0)) = some 1 ∧
    (svdOne (constMat 1) 1 1).U 0 0 *
      ((svdOne (constMat 1) 1 1).S 0 * (svdOne (constMat 1) 1 1).V 0 0) =
      constMat 1 0 0 ∧
    (∀ M : Mat, eigDiag M 1 = [(M 0 0, 0)]) ∧
    npGE1 (-2, 0) = false ∧
    (1 : ℚ) ≤ magSq (-2, 0) := by
  refine ⟨?_, ?_, ?_, by norm_num [svdOne, constMat],
    fun M => by simp [eigDiag, List.range_succ], by norm_num [npGE1],
    by norm_num [magSq]⟩ <;>
    norm_num [ERA.compute_ROM, ERA.set_Markovs, ERA.trimMarkovs,
      ERA.assemble_Hankel, ERA.hankelRowLoop, ERA.hankelColLoop, setBlock,
      zeroMat, ERA.romFromSVD, mmul, diagVec, transposeMat, unstableAny,
      npGE1, oraclesC2, svdOne, eigDiag, sqrtAtOne, tC2, constMat, ERA.init,
      Finset.sum_range_succ, Int.fdiv]

/-- Claim C3 counterexample: a `compute_ROM` call that raises the
configuration error still leaves the instance's observable fields mutated:
`num_time_steps` goes from 99 to 6, `mo` from 7 to 3, and `Markovs` from
unset to set, refuting the claim that on failure these fields are as they
were before the call. -/
theorem era_config_failure_mutates :
    (ERA.compute_ROM oraclesC2 s0C3 tERA6 1 (some 3) (some 3)).2 =
      Except.error .configError ∧
    s0C3.num_time_steps = some 99 ∧
    (ERA.compute_ROM oraclesC2 s0C3 tERA6 1 (some 3)
      (some 3)).1.num_time_steps = some 6 ∧
    s0C3.mo = some 7 ∧
    (ERA.compute_ROM oraclesC2 s0C3 tERA6 1 (some 3) (some 3)).1.mo =
      some 3 ∧
    s0C3.Markovs = none ∧
    ((ERA.compute_ROM oraclesC2 s0C3 tERA6 1 (some 3)
      (some 3)).1.Markovs).isSome = true := by
  refine ⟨?_, rfl, ?_, rfl, ?_, rfl, ?_⟩ <;>
    simp [ERA.compute_ROM, ERA.set_Markovs, ERA.trimMarkovs,
      ERA.assemble_Hankel, oraclesC2, tERA6, s0C3, ERA.init, List.range_succ]

/-- Witness for C3: the amended theorem applied to the concrete failing
configuration-error call of the counterexample. -/
theorem era_failure_not_factored_witness :
    (ERA.compute_ROM oraclesC2 s0C3 tERA6 1 (some 3) (some 3)).1.L_sing_vecs =
      s0C3.L_sing_vecs ∧
    (ERA.compute_ROM oraclesC2 s0C3 tERA6 1 (some 3) (some 3)).1.A =
      s0C3.A ∧
    (ERA.compute_ROM oraclesC2 s0C3 tERA6 1 (some 3) (some 3)).1.Hankel_mat =
      s0C3.Hankel_mat := by
  have h2 : (ERA.compute_ROM oraclesC2 s0C3 tERA6 1 (some 3) (some 3)).2 =
      Except.error .configError := by
    simp [ERA.compute_ROM, ERA.set_Markovs, ERA.trimMarkovs,
      ERA.assemble_Hankel, oraclesC2, tERA6, s0C3, ERA.init, List.range_succ]
  have h : ERA.compute_ROM oraclesC2 s0C3 tERA6 1 (some 3) (some 3) =
      ((ERA.compute_ROM oraclesC2 s0C3 tERA6 1 (some 3) (some 3)).1,
       Except.error .configError) := by
    rw [← h2]
  have hmain := era_failure_not_factored oraclesC2 s0C3 tERA6 1 (some 3)
    (some 3) (ERA.compute_ROM oraclesC2 s0C3 tERA6 1 (some 3) (some 3)).1
    .configError h
  exact ⟨hmain.1, hmain.2.2.2.1, (hmain.2.2.2.2.2.2 rfl).1⟩

/-- Witness for C4: the block-structure theorem applied to a 7-step
(odd, so trimmed to 6) scalar Markov tensor with `mo = mc = 2`. -/
theorem era_hankel_blocks_witness :
    (ERA.assemble_Hankel
      { ERA.set_Markovs (ERA.init none none true) tC4 with
          mo := some (2 : ℤ), mc := some (2 : ℤ) }).2 = none ∧
    tC4.data.length % 2 = 1 := by
  have hlen : (ERA.trimMarkovs tC4.data).length = 6 := by
    simp [ERA.trimMarkovs, tC4]
  refine ⟨?_, by simp [tC4]⟩
  exact (era_hankel_blocks (ERA.init none none true) tC4 2 2 (by omega)
    (fun row col h1 h2 => by omega)).1

/-- Claim C4 counterexample: at trimmed length T = 8 the block counts
`mo = mc = 3` pass the configuration check (3 + 3 + 2 = 8 ≤ 8), yet
assembly aborts with the numpy index error — the loop's last iteration
reads `Markovs[2*(2+2)]`, index 8 on an 8-step array (era.py line 316) —
and no block-structured Hankel pair is produced, refuting the original
claim for block counts whose only validity condition is the
configuration check. -/
theorem era_hankel_index_overflow :
    (3 : ℤ) + 3 + 2 ≤ ((ERA.trimMarkovs tC4b.data).length : ℤ) ∧
    (ERA.trimMarkovs tC4b.data).length = 8 ∧
    (ERA.assemble_Hankel
      { ERA.set_Markovs (ERA.init none none true) tC4b with
          mo := some 3, mc := some 3 }).2 = some .indexError := by
  refine ⟨by simp [ERA.trimMarkovs, tC4b], by simp [ERA.trimMarkovs, tC4b],
    ?_⟩
  simp [ERA.assemble_Hankel, ERA.set_Markovs, ERA.trimMarkovs, tC4b,
    ERA.init, ERA.hankelRowLoop, ERA.hankelColLoop, setBlock, zeroMat,
    constMat]

/-- Witness for C5: the reconstruction-formula theorem applied to a
concrete 1×1 factorisation. -/
theorem era_rom_matches_spec_witness :
    (ERA.romFromSVD sqrtAtOne sqrtAtOne (constMat 1) (fun _ => 1)
      (constMat 1) 1 1 1 1 (constMat (-2))).1 0 0 =
      AspecERA sqrtAtOne (constMat 1) (fun _ => 1) (constMat 1) 1 1
        (constMat (-2)) 0 0 ∧
    (ERA.romFromSVD sqrtAtOne sqrtAtOne (constMat 1) (fun _ => 1)
      (constMat 1) 1 1 1 1 (constMat (-2))).2.1 0 0 =
      BspecERA sqrtAtOne (fun _ => 1) (constMat 1) 0 0 ∧
    (ERA.romFromSVD sqrtAtOne sqrtAtOne (constMat 1) (fun _ => 1)
      (constMat 1) 1 1 1 1 (constMat (-2))).2.2 0 0 =
      CspecERA sqrtAtOne (constMat 1) (fun _ => 1) 0 0 := by
  obtain ⟨h1, h2, h3⟩ := era_rom_matches_spec sqrtAtOne sqrtAtOne
    (constMat 1) (fun _ => 1) (constMat 1) (constMat (-2)) 1 1 1 1 1 1 0 0
  exact ⟨h1 (by decide) (by decide), h2 (by decide) (by decide),
    h3 (by decide) (by decide)⟩

/-- Witness for C7: the sampled-format theorem applied to times
`[0,1,2,3]` (yielding steps `[0,1,1,2,2,3]` and dt = 1) and to the
non-uniform times `[0,1,2,4]` (yielding the data error). -/
theorem era_make_sampled_format_witness :
    (∃ ts ms, make_sampled_format [0, 1, 2, 3] tC7 0 = .ok (ts, ms, 1) ∧
      ts.length = 6 ∧
      ts.getD 0 0 = 0 ∧ ts.getD 1 0 = 1 ∧ ts.getD 2 0 = 1 ∧
      ts.getD 3 0 = 2 ∧ ts.getD 4 0 = 2 ∧ ts.getD 5 0 = 3) ∧
    make_sampled_format [0, 1, 2, 4] tC7 0 = .error .dataError := by
  constructor
  · obtain ⟨ts, ms, h1, h2, h3, h4⟩ := era_make_sampled_format_spec.1
      [0, 1, 2, 3] tC7 1 0 4 (by omega) (by simp) (by simp [tC7])
      (by norm_num) (le_refl 0)
      (by
        intro i hi
        interval_cases i <;> norm_num [List.getD])
    obtain ⟨e0, e1, -, -⟩ := h4 0 (by omega)
    obtain ⟨e2, e3, -, -⟩ := h4 1 (by omega)
    obtain ⟨e4, e5, -, -⟩ := h4 2 (by omega)
    refine ⟨ts, ms, h1, by omega, ?_, ?_, ?_, ?_, ?_, ?_⟩
    · exact e0
    · exact e1
    · simpa using e2
    · simpa using e3
    · simpa using e4
    · simpa using e5
  · refine era_make_sampled_format_spec.2 [0, 1, 2, 4] 0 1 [2, 4] tC7 0 rfl
      (by simp [tC7]) ⟨2, by simp, by norm_num [List.getD]⟩

/-- Witness for C8: the build-coefficient theorem applied to a populated
concrete decomposition. -/
theorem bpod_build_coeff_formula_witness :
    ∃ Md Ma,
      BPOD.compute_direct_build_coeff_mat sqrtAtOne sC8 = .ok Md ∧
      BPOD.compute_adjoint_build_coeff_mat sqrtAtOne sC8 = .ok Ma ∧
      ∀ i j, j < ([1] : List ℚ).length →
        Md i j = buildCoeffSpec sqrtAtOne (constMat 2) [1] i j ∧
        Ma i j = buildCoeffSpec sqrtAtOne (constMat 3) [1] i j :=
  bpod_build_coeff_formula sqrtAtOne sC8 (constMat 3) (constMat 2) [1]
    rfl rfl rfl

/-- Witness for C9: the artifact-check theorem applied to the freshly
constructed instance (errors) and to a populated one (succeeds). -/
theorem bpod_mode_requires_decomp_witness :
    BPOD.compute_direct_build_coeff_mat sqrtAtOne BPOD.init =
      .error .undefinedError ∧
    BPOD.compute_adjoint_build_coeff_mat sqrtAtOne BPOD.init =
      .error .undefinedError ∧
    (∃ M, BPOD.compute_direct_build_coeff_mat sqrtAtOne sC8 = .ok M) ∧
    (∃ M, BPOD.compute_adjoint_build_coeff_mat sqrtAtOne sC8 = .ok M) := by
  refine ⟨(bpod_mode_requires_decomp sqrtAtOne BPOD.init).1 (Or.inl rfl),
    (bpod_mode_requires_decomp sqrtAtOne BPOD.init).2.1 (Or.inl rfl),
    (bpod_mode_requires_decomp sqrtAtOne sC8).2.2.1 (constMat 2) [1] rfl rfl,
    (bpod_mode_requires_decomp sqrtAtOne sC8).2.2.2 (constMat 3) [1] rfl rfl⟩

/-- Witness for C10: `compute_ROM` on an instance constructed with
`mc = mo = 7`, called with `mc = 5` and `mo` omitted, defaults both to 1
(ignoring the supplied 5); called with `mc = 5, mo = 4`, stores exactly
those. -/
theorem era_momc_overwrite_witness :
    ((ERA.compute_ROM oraclesC2 s0C3 tERA6 1 (some 5) none).1.mo = some 1 ∧
     (ERA.compute_ROM oraclesC2 s0C3 tERA6 1 (some 5) none).1.mc = some 1) ∧
    ((ERA.compute_ROM oraclesC2 s0C3 tERA6 1 (some 5) (some 4)).1.mo =
        some 4 ∧
     (ERA.compute_ROM oraclesC2 s0C3 tERA6 1 (some 5) (some 4)).1.mc =
        some 5) ∧
    s0C3.mo = some 7 ∧ s0C3.mc = some 7 := by
  have hlen : (ERA.trimMarkovs tERA6.data).length = 6 := by
    simp [ERA.trimMarkovs, tERA6]
  have h1 := (era_momc_overwrite oraclesC2 s0C3 tERA6 1 (some 5) none).1
    (Or.inl rfl)
  have h2 := (era_momc_overwrite oraclesC2 s0C3 tERA6 1 (some 5) (some 4)).2
    5 4 rfl rfl
  rw [hlen] at h1
  have hd : (((6 : ℕ) : ℤ) - 2).fdiv 4 = 1 := by decide
  rw [hd] at h1
  exact ⟨h1, h2, rfl, rfl⟩
